import Mathlib

/-!
Verification of the unbounded lock-free list channel (`src/flavors/list.rs`)
against its natural-language specification.

The Rust module implements a Vyukov-style non-intrusive MPSC queue extended
with an adaptive dual-mode pop protocol.  We embed the channel state
shallowly: the heap of live nodes is an association list from addresses to
nodes, `head`/`tail` are node addresses, the `USE`/`MULTI` tag bits packed
into the `head` pointer are kept in a separate `headTag` field, and the two
`usize` counters are naturals reduced modulo `2 ^ 64`.  Every operation is
modelled as it executes with no interference from other threads, i.e. each
call runs to completion atomically; the places where the source would spin
forever or touch invalid memory in such an execution are made explicit
(`PopResult.retry` / `PopResult.stuck`).
-/

namespace ListChannel

variable {T : Type}

/-- One node of the singly linked list (`struct Node<T>` in `flavors/list.rs`):
a payload slot and a nullable reference to the next node.  The payload slot is
`Option`-valued because the sentinel's slot is never initialized
(`mem::uninitialized()`) and a slot is moved out of by `ptr::read` on a
successful pop; `none` models a slot holding no live value. -/
structure Node (T : Type) where
  next : Option Nat
  value : Option T
deriving Repr, DecidableEq

/-- `usize` arithmetic is modulo `2 ^ 64`. -/
def usizeSize : Nat := 2 ^ 64

/-- Tag bit on `head`: some receiver is currently examining the head node. -/
def USE : Nat := 1

/-- Tag bit on `head`: the channel is permanently in multi-receiver mode. -/
def MULTI : Nat := 2

/-- The channel state (`struct Channel<T>`).  `heap` maps addresses to the
currently allocated nodes; `nextAddr` is a fresh-address source for the
allocator.  `notifyCount` and `abortCount` record the calls into the external
`Monitor` (`receivers.notify_one()` and `receivers.abort_all()`), which is an
external collaborator of this module. -/
structure Chan (T : Type) where
  heap : List (Nat × Node T)
  head : Nat
  headTag : Nat
  tail : Nat
  sendCount : Nat
  recvCount : Nat
  closed : Bool
  nextAddr : Nat
  notifyCount : Nat
  abortCount : Nat
deriving Repr, DecidableEq

/-- Dereference an address in the heap. -/
def lookupNode (h : List (Nat × Node T)) (a : Nat) : Option (Node T) :=
  (h.find? fun p => p.1 == a).map Prod.snd

/-- Store into the `next` field of the node at address `a`
(`old.deref().next.store(new, SeqCst)`). -/
def setNext (h : List (Nat × Node T)) (a : Nat) (nx : Option Nat) :
    List (Nat × Node T) :=
  h.map fun p => if p.1 = a then (p.1, { p.2 with next := nx }) else p

/-- Mark the payload slot of the node at address `a` as moved out of
(`ptr::read(&next.deref().value)`). -/
def clearValue (h : List (Nat × Node T)) (a : Nat) : List (Nat × Node T) :=
  h.map fun p => if p.1 = a then (p.1, { p.2 with value := none }) else p

/-- Deallocate the node at address `a` (`Vec::from_raw_parts(..)` in Mode A,
`scope.defer_free(head)` in Mode B). -/
def removeNode (h : List (Nat × Node T)) (a : Nat) : List (Nat × Node T) :=
  h.filter fun p => p.1 != a

/-- `Channel::new()`: one sentinel node with an uninitialized payload slot,
`head` and `tail` both pointing at it, counters zero, channel open. -/
def new : Chan T :=
  { heap := [(0, { next := none, value := none })]
    head := 0
    headTag := 0
    tail := 0
    sendCount := 0
    recvCount := 0
    closed := false
    nextAddr := 1
    notifyCount := 0
    abortCount := 0 }

/-- The four atomic statements of `Channel::push`, named (lines 70–80):
allocate the node; `self.tail.swap(new, SeqCst)`;
`self.send_count.fetch_add(1, SeqCst)`; `old.deref().next.store(new, SeqCst)`. -/
inductive PushStep where
  | alloc
  | swapTail
  | incSendCount
  | linkNext
deriving Repr, DecidableEq

/-- Intermediate state while `push` runs: the channel plus the two locals,
`new` (address of the freshly allocated node) and `old` (the displaced tail). -/
structure PushMicro (T : Type) where
  chan : Chan T
  newAddr : Option Nat
  oldTail : Option Nat

/-- Effect of one atomic statement of `Channel::push`. -/
def applyPushStep (v : T) (s : PushMicro T) : PushStep → PushMicro T
  | .alloc =>
    let a := s.chan.nextAddr
    { s with
      chan := { s.chan with
                heap := (a, { next := none, value := some v }) :: s.chan.heap
                nextAddr := a + 1 }
      newAddr := some a }
  | .swapTail =>
    match s.newAddr with
    | some a => { s with oldTail := some s.chan.tail, chan := { s.chan with tail := a } }
    | none => s
  | .incSendCount =>
    { s with chan := { s.chan with sendCount := (s.chan.sendCount + 1) % usizeSize } }
  | .linkNext =>
    match s.oldTail, s.newAddr with
    | some o, some a =>
      { s with chan := { s.chan with heap := setNext s.chan.heap o (some a) } }
    | _, _ => s

/-- The order in which `Channel::push` performs its atomic statements,
transcribed from the source (lines 70–80). -/
def pushSteps : List PushStep := [.alloc, .swapTail, .incSendCount, .linkNext]

/-- Run `push`'s statements in a given order. -/
def pushVia (steps : List PushStep) (c : Chan T) (v : T) : Chan T :=
  (steps.foldl (applyPushStep v) { chan := c, newAddr := none, oldTail := none }).chan

/-- `Channel::push`.  Always succeeds and never blocks. -/
def push (c : Chan T) (v : T) : Chan T := pushVia pushSteps c v

/-- Outcome of one iteration of a `Channel::pop` loop.  `retry` means the
iteration performed no net state change and the loop runs again (so a
solo caller never returns: the producer whose mid-append it observed is
assumed frozen).  `stuck` means the call dereferences a missing node, reads
an uninitialized payload slot, or enters the unbounded `USE` spin — none of
which happens in a state reachable from `new`. -/
inductive PopResult (T : Type) where
  | popped (v : T)
  | empty
  | retry
  | stuck
deriving Repr, DecidableEq

/-- The shared loop body of `Channel::pop` (both modes walk `head`, inspect
`head.next`, and on success advance `head` to `next` while bumping
`recv_count` and freeing the old head).  The modes differ only in the tag the
successful compare-and-swap installs on `head`: Mode A installs `next`
untagged, Mode B installs `next.with_tag(MULTI)`.  The compare-and-swap
cannot fail in an interference-free execution, so no failure branch
appears. -/
def popBody (c : Chan T) (newTag : Nat) : PopResult T × Chan T :=
  match lookupNode c.heap c.head with
  | none => (.stuck, c)
  | some n =>
    match n.next with
    | none => if c.tail = c.head then (.empty, c) else (.retry, c)
    | some b =>
      match lookupNode c.heap b with
      | none => (.stuck, c)
      | some m =>
        match m.value with
        | none => (.stuck, c)
        | some v =>
          (.popped v,
            { c with
              heap := clearValue (removeNode c.heap c.head) b
              head := b
              headTag := newTag
              recvCount := (c.recvCount + 1) % usizeSize })

/-- One iteration of `Channel::pop` (lines 85–151).  If `MULTI` is unset the
fast path runs: `fetch_or(USE)` returns the old tag; a nonzero old tag means
another receiver holds `USE`, and with no interference the subsequent
busy-wait for `USE` to clear never ends (`stuck`).  Otherwise the Mode A body
runs and its compare-and-swap clears the tag.  If `MULTI` is set the Mode B
body runs and its compare-and-swap re-installs `MULTI`. -/
def popOnce (c : Chan T) : PopResult T × Chan T :=
  if c.headTag &&& MULTI = 0 then
    if c.headTag ≠ 0 then (.stuck, c) else popBody c 0
  else popBody c MULTI

/-- `Channel::pop` run to completion with no interference: `none` when the
call does not return normally (a `retry` repeats forever in an unchanged
state, and `stuck` is an invalid access or unbounded spin). -/
def pop (c : Chan T) : Option (Option T × Chan T) :=
  match popOnce c with
  | (.popped v, c') => some (some v, c')
  | (.empty, c') => some (none, c')
  | (.retry, _) => none
  | (.stuck, _) => none

/-- Which branch of `Channel::pop` a call takes, decided by the `MULTI` bit of
the current `head` tag (line 92). -/
inductive PopMode where
  | exclusiveA
  | multiB
deriving Repr, DecidableEq

/-- The mode test of `Channel::pop`: `self.head.load(Relaxed).tag() & MULTI`. -/
def popMode (c : Chan T) : PopMode :=
  if c.headTag &&& MULTI = 0 then .exclusiveA else .multiB

/-- Result of `Channel::try_send` (`Result<(), TrySendError<T>>`); the
`Disconnected` error carries the rejected value back to the caller. -/
inductive TrySendResult (T : Type) where
  | ok
  | disconnected (value : T)
deriving Repr, DecidableEq

/-- Result of `Channel::send` (`Result<(), SendTimeoutError<T>>`). -/
inductive SendTimeoutResult (T : Type) where
  | ok
  | disconnected (value : T)
  | timeout
deriving Repr, DecidableEq

/-- Result of `Channel::try_recv` (`Result<T, TryRecvError>`). -/
inductive TryRecvResult (T : Type) where
  | ok (v : T)
  | empty
  | disconnected
deriving Repr, DecidableEq

/-- `self.receivers.notify_one()`: a call into the external `Monitor`,
recorded in the ghost counter. -/
def notifyOne (c : Chan T) : Chan T :=
  { c with notifyCount := c.notifyCount + 1 }

/-- `Channel::try_send` (lines 164–172): check `closed`, then push and wake
one parked receiver. -/
def trySend (c : Chan T) (v : T) : TrySendResult T × Chan T :=
  if c.closed then (.disconnected v, c)
  else (.ok, notifyOne (push c v))

/-- `Channel::send` (lines 174–182): identical to `try_send` up to the error
type. -/
def send (c : Chan T) (v : T) : SendTimeoutResult T × Chan T :=
  if c.closed then (.disconnected v, c)
  else (.ok, notifyOne (push c v))

/-- `Channel::try_recv` (lines 184–194): read `closed` first, then pop;
`None` from `pop` becomes `Disconnected` or `Empty` according to the earlier
read of `closed`.  `none` propagates a `pop` call that does not return. -/
def tryRecv (c : Chan T) : Option (TryRecvResult T × Chan T) :=
  let closed := c.closed
  match pop c with
  | some (some v, c') => some (.ok v, c')
  | some (none, c') => some (if closed then .disconnected else .empty, c')
  | none => none

/-- The wraparound difference `send_count.wrapping_sub(recv_count)` on
`usize` values. -/
def wrapSub (a b : Nat) : Nat := (a + (usizeSize - b % usizeSize)) % usizeSize

/-- `Channel::len` (lines 153–162).  The retry loop re-reads `send_count`
until stable; with no interference the first round is already stable, so the
call returns the wraparound difference of the two counters. -/
def len (c : Chan T) : Nat := wrapSub c.sendCount c.recvCount

/-- `Channel::close` (lines 233–240): swap `closed` to `true`; the call that
performed the false→true transition invokes `receivers.abort_all()` and
returns `true`, any later call returns `false` and does nothing. -/
def close (c : Chan T) : Bool × Chan T :=
  if c.closed then (false, c)
  else (true, { c with closed := true, abortCount := c.abortCount + 1 })

/-- `Channel::is_closed`. -/
def isClosed (c : Chan T) : Bool := c.closed

/-- The chain of node addresses obtained by starting at address `a` and
following `next` references until a null one, with explicit fuel (the heap is
finite, so `heap.length` fuel suffices on well-formed states). -/
def chainF (h : List (Nat × Node T)) : Nat → Nat → Option (List Nat)
  | 0, _ => none
  | fuel + 1, a =>
    match lookupNode h a with
    | none => none
    | some n =>
      match n.next with
      | none => some [a]
      | some b => (chainF h fuel b).map (a :: ·)

/-- The list of node addresses from `head` to the end of the list. -/
def chain (c : Chan T) : Option (List Nat) := chainF c.heap c.heap.length c.head

/-- The undelivered values: the payloads of the nodes after `head`, in list
order.  The node `head` itself points to is the sentinel or an
already-consumed node and holds no live value. -/
def undelivered (c : Chan T) : List T :=
  match chain c with
  | none => []
  | some as => (as.drop 1).filterMap fun a => (lookupNode c.heap a).bind Node.value

/-- Well-formedness of a channel state: the chain from `head` exists, ends at
`tail`, visits every allocated node exactly once, all addresses are below the
allocation cursor, every node after `head` holds a live value, the `head` tag
is `0` or `MULTI`, and the counters are `usize` values. -/
def wfB (c : Chan T) : Bool :=
  match chain c with
  | none => false
  | some as =>
    (as.getLast? == some c.tail) &&
    decide (c.heap.map Prod.fst).Nodup &&
    decide as.Nodup &&
    ((c.heap.map Prod.fst).all fun k => as.contains k) &&
    ((c.heap.map Prod.fst).all fun k => k < c.nextAddr) &&
    ((as.drop 1).all fun x => ((lookupNode c.heap x).bind Node.value).isSome) &&
    (c.headTag == 0 || c.headTag == MULTI) &&
    decide (c.sendCount < usizeSize) &&
    decide (c.recvCount < usizeSize)

/-- Well-formed channel states. -/
def Wf (c : Chan T) : Prop := wfB c = true

/-- `fuel` repetitions of `try_recv`, collecting the results (used to state
the drain-after-close property).  A `try_recv` that does not return ends the
run; this does not happen on well-formed states. -/
def drain : Nat → Chan T → List (TryRecvResult T) × Chan T
  | 0, c => ([], c)
  | fuel + 1, c =>
    match tryRecv c with
    | none => ([], c)
    | some (r, c') =>
      let p := drain fuel c'
      (r :: p.1, p.2)

/-- One atomic channel operation, as a step relation between states.  `len`
and `is_closed` do not change the state and need no step. -/
inductive StepTo : Chan T → Chan T → Prop where
  | push (c : Chan T) (v : T) : StepTo c (push c v)
  | pop (c : Chan T) : StepTo c (popOnce c).2
  | close (c : Chan T) : StepTo c (close c).2

/-- Reachability of one channel state from another by a sequence of
push/pop/close operations. -/
inductive ReachFrom : Chan T → Chan T → Prop where
  | refl (c : Chan T) : ReachFrom c c
  | step {a b c : Chan T} : ReachFrom a b → StepTo b c → ReachFrom a c

/-- States reachable from `Channel::new()`. -/
def Reachable (c : Chan T) : Prop := ReachFrom new c

/-- The `Drop` impl's loop (lines 252–268), walking from an address: it frees
every node it visits and applies the line-260 destruction to each node that it
reaches through a `next` reference — every visited node except the first.
Returns `(freed addresses, addresses of nodes whose payload slot line 260 is
aimed at)`. -/
def dropWalk (h : List (Nat × Node T)) : Nat → Nat → Option (List Nat × List Nat)
  | 0, _ => none
  | fuel + 1, a =>
    match lookupNode h a with
    | none => none
    | some n =>
      match n.next with
      | none => some ([a], [])
      | some b => (dropWalk h fuel b).map fun p => (a :: p.1, b :: p.2)

/-- Address of the `value` field of a node whose storage starts at `base`,
when the field lives `off` bytes into `Node<T>`. -/
def valueSlotAddr (base off : Nat) : Nat := base + off

/-- `ptr::drop_in_place::<Node<T>>(p)` runs the drop glue of `Node<T>` at
address `p`; the glue destroys the `T` it expects at the `value` field's
offset, i.e. at `p + off`. -/
def dropGlueDestroys (p off : Nat) : Nat := p + off

/-- What line 260 destroys for the node at `base`: it casts `&n.value` (the
slot at `base + off`) to `*mut Node<T>` and calls `ptr::drop_in_place` on it,
so the drop glue of `Node<T>` runs at the slot's address rather than at the
node's. -/
def dropTargetLine260 (base off : Nat) : Nat :=
  dropGlueDestroys (valueSlotAddr base off) off

/-- C1 scenario: the fresh channel and the three sends of 10, 20, 30. -/
def scn0 : Chan Nat := new

def scn1 : Chan Nat := (trySend scn0 10).2

def scn2 : Chan Nat := (trySend scn1 20).2

def scn3 : Chan Nat := (trySend scn2 30).2

/-- The state after a `try_recv` (the channel itself when the call does not
return, which never happens in the C1 scenario — the results are asserted). -/
def recvSt (c : Chan Nat) : Chan Nat := ((tryRecv c).map Prod.snd).getD c

/-- The result of a `try_recv`. -/
def recvRes (c : Chan Nat) : Option (TryRecvResult Nat) := (tryRecv c).map Prod.fst

def scn4 : Chan Nat := recvSt scn3

def scn5 : Chan Nat := recvSt scn4

def scn6 : Chan Nat := recvSt scn5

def scn7 : Chan Nat := (close scn6).2

/-- A channel caught in the middle of a concurrent `push`: the producer has
already swapped `tail` to its new node (address 1) but has not yet linked
`head.next`, so `head`'s next-reference is null while `tail ≠ head`. -/
def midAppend : Chan Nat :=
  { heap := [(1, { next := none, value := some 5 }), (0, { next := none, value := none })]
    head := 0
    headTag := 0
    tail := 1
    sendCount := 1
    recvCount := 0
    closed := false
    nextAddr := 2
    notifyCount := 0
    abortCount := 0 }

/-- A channel whose `head` reference carries the `MULTI` tag, holding one
undelivered value. -/
def multiState : Chan Nat :=
  { heap := [(0, { next := some 1, value := none }), (1, { next := none, value := some 5 })]
    head := 0
    headTag := MULTI
    tail := 1
    sendCount := 1
    recvCount := 0
    closed := false
    nextAddr := 2
    notifyCount := 0
    abortCount := 0 }

/-- A two-value channel used to evaluate the destructor's traversal. -/
def dropScn : Chan Nat := push (push new 7) 8

/-- A channel closed while still holding the undelivered values 1 and 2. -/
def closedScn : Chan Nat := (close (push (push new 1) 2)).2

/-! ## Heap lemmas -/

theorem lookupNode_cons {b : Nat} {n : Node T} {h : List (Nat × Node T)} {a : Nat} :
    lookupNode ((b, n) :: h) a = if b = a then some n else lookupNode h a := by
  by_cases hb : b = a <;> simp [lookupNode, List.find?_cons, hb]

theorem lookupNode_setNext {h : List (Nat × Node T)} {t x : Nat} {nx : Option Nat} :
    lookupNode (setNext h t nx) x =
      (lookupNode h x).map fun n => if x = t then { n with next := nx } else n := by
  induction h with
  | nil => simp [setNext, lookupNode]
  | cons p h ih =>
    obtain ⟨k, n⟩ := p
    by_cases hkt : k = t <;> by_cases hkx : k = x <;>
      simp_all [setNext, lookupNode_cons]

theorem lookupNode_clearValue {h : List (Nat × Node T)} {t x : Nat} :
    lookupNode (clearValue h t) x =
      (lookupNode h x).map fun n => if x = t then { n with value := none } else n := by
  induction h with
  | nil => simp [clearValue, lookupNode]
  | cons p h ih =>
    obtain ⟨k, n⟩ := p
    by_cases hkt : k = t <;> by_cases hkx : k = x <;>
      simp_all [clearValue, lookupNode_cons]

theorem lookupNode_removeNode {h : List (Nat × Node T)} {t x : Nat} :
    lookupNode (removeNode h t) x = if x = t then none else lookupNode h x := by
  induction h with
  | nil => simp [removeNode, lookupNode]
  | cons p h ih =>
    obtain ⟨k, n⟩ := p
    by_cases hkt : k = t <;> by_cases hkx : k = x <;>
      simp_all [removeNode, lookupNode_cons, List.filter_cons]

theorem lookupNode_mem_keys {h : List (Nat × Node T)} {a : Nat} {n : Node T}
    (hl : lookupNode h a = some n) : a ∈ h.map Prod.fst := by
  induction h with
  | nil => simp [lookupNode] at hl
  | cons p h ih =>
    obtain ⟨k, m⟩ := p
    rw [lookupNode_cons] at hl
    by_cases hk : k = a
    · simp [hk]
    · simp only [if_neg hk] at hl
      simp [ih hl]

theorem keys_setNext {h : List (Nat × Node T)} {t : Nat} {nx : Option Nat} :
    (setNext h t nx).map Prod.fst = h.map Prod.fst := by
  induction h with
  | nil => rfl
  | cons p h ih =>
    obtain ⟨k, n⟩ := p
    by_cases hk : k = t <;> simp [setNext, hk] at ih ⊢ <;> exact ih

theorem keys_clearValue {h : List (Nat × Node T)} {t : Nat} :
    (clearValue h t).map Prod.fst = h.map Prod.fst := by
  induction h with
  | nil => rfl
  | cons p h ih =>
    obtain ⟨k, n⟩ := p
    by_cases hk : k = t <;> simp [clearValue, hk] at ih ⊢ <;> exact ih

theorem keys_removeNode {h : List (Nat × Node T)} {t : Nat} :
    (removeNode h t).map Prod.fst = (h.map Prod.fst).filter (· != t) := by
  induction h with
  | nil => rfl
  | cons p h ih =>
    obtain ⟨k, n⟩ := p
    by_cases hk : k = t <;> simp [removeNode, List.filter_cons, hk] at ih ⊢ <;>
      simpa [hk] using ih

theorem removeNode_cons {k t : Nat} {n : Node T} {h : List (Nat × Node T)} :
    removeNode ((k, n) :: h) t =
      if k = t then removeNode h t else (k, n) :: removeNode h t := by
  by_cases hk : k = t <;> simp [removeNode, List.filter_cons, hk]

theorem removeNode_of_notMem {h : List (Nat × Node T)} {t : Nat}
    (ht : t ∉ h.map Prod.fst) : removeNode h t = h := by
  induction h with
  | nil => rfl
  | cons p h ih =>
    obtain ⟨k, n⟩ := p
    simp only [List.map_cons, List.mem_cons, not_or] at ht
    rw [removeNode_cons, if_neg (Ne.symm ht.1), ih ht.2]

theorem length_removeNode {h : List (Nat × Node T)} {t : Nat}
    (hd : (h.map Prod.fst).Nodup) (ht : t ∈ h.map Prod.fst) :
    (removeNode h t).length + 1 = h.length := by
  induction h with
  | nil => simp at ht
  | cons p h ih =>
    obtain ⟨k, n⟩ := p
    simp only [List.map_cons, List.nodup_cons] at hd
    by_cases hk : k = t
    · subst hk
      rw [removeNode_cons, if_pos rfl, removeNode_of_notMem hd.1, List.length_cons]
    · simp only [List.map_cons, List.mem_cons] at ht
      rcases ht with ht | ht
      · exact absurd ht.symm hk
      · rw [removeNode_cons, if_neg hk]
        simp only [List.length_cons]
        rw [← ih hd.2 ht]

/-! ## Chain lemmas -/

theorem getLast?_mem_of_eq {l : List Nat} {t : Nat} (h : l.getLast? = some t) :
    t ∈ l := by
  obtain ⟨hne, rfl⟩ := List.mem_getLast?_eq_getLast (Option.mem_def.mpr h)
  exact List.getLast_mem hne

theorem chainF_zero {h : List (Nat × Node T)} {a : Nat} : chainF h 0 a = none := rfl

theorem chainF_eq_none {h : List (Nat × Node T)} {f a : Nat}
    (hl : lookupNode h a = none) : chainF h (f + 1) a = none := by
  simp [chainF, hl]

theorem chainF_eq_last {h : List (Nat × Node T)} {f a : Nat} {n : Node T}
    (hl : lookupNode h a = some n) (hn : n.next = none) :
    chainF h (f + 1) a = some [a] := by
  simp [chainF, hl, hn]

theorem chainF_eq_cons {h : List (Nat × Node T)} {f a : Nat} {n : Node T} {b : Nat}
    (hl : lookupNode h a = some n) (hn : n.next = some b) :
    chainF h (f + 1) a = (chainF h f b).map (a :: ·) := by
  simp [chainF, hl, hn]

theorem chainF_inv {h : List (Nat × Node T)} {f a : Nat} {as : List Nat}
    (hc : chainF h (f + 1) a = some as) :
    ∃ n, lookupNode h a = some n ∧
      ((n.next = none ∧ as = [a]) ∨
        ∃ b as', n.next = some b ∧ as = a :: as' ∧ chainF h f b = some as') := by
  cases hl : lookupNode h a with
  | none => rw [chainF_eq_none hl] at hc; cases hc
  | some n =>
    refine ⟨n, rfl, ?_⟩
    cases hn : n.next with
    | none =>
      rw [chainF_eq_last hl hn] at hc
      exact Or.inl ⟨rfl, by injection hc with hc; exact hc.symm⟩
    | some b =>
      rw [chainF_eq_cons hl hn] at hc
      cases hcb : chainF h f b with
      | none => rw [hcb] at hc; cases hc
      | some as' =>
        rw [hcb] at hc
        injection hc with hc
        exact Or.inr ⟨b, as', rfl, hc.symm, hcb⟩

theorem chainF_shape {h : List (Nat × Node T)} {f a : Nat} {as : List Nat}
    (hc : chainF h f a = some as) : ∃ as', as = a :: as' := by
  cases f with
  | zero => cases hc
  | succ f =>
    obtain ⟨n, -, hrest⟩ := chainF_inv hc
    rcases hrest with ⟨-, rfl⟩ | ⟨b, as', -, rfl, -⟩
    · exact ⟨[], rfl⟩
    · exact ⟨as', rfl⟩

theorem chainF_lookup {h : List (Nat × Node T)} :
    ∀ {f a : Nat} {as : List Nat}, chainF h f a = some as →
      ∀ x ∈ as, (lookupNode h x).isSome = true := by
  intro f
  induction f with
  | zero => intro a as hc; cases hc
  | succ f ih =>
    intro a as hc x hx
    obtain ⟨n, hl, hrest⟩ := chainF_inv hc
    rcases hrest with ⟨-, rfl⟩ | ⟨b, as', -, rfl, hcb⟩
    · simp only [List.mem_singleton] at hx
      subst hx; simp [hl]
    · rcases List.mem_cons.mp hx with rfl | hx
      · simp [hl]
      · exact ih hcb x hx

theorem chainF_congr {h h' : List (Nat × Node T)} :
    ∀ {f a : Nat} {as : List Nat}, chainF h f a = some as →
      (∀ x ∈ as, (lookupNode h' x).map Node.next = (lookupNode h x).map Node.next) →
      chainF h' f a = some as := by
  intro f
  induction f with
  | zero => intro a as hc; cases hc
  | succ f ih =>
    intro a as hc hpres
    obtain ⟨n, hl, hrest⟩ := chainF_inv hc
    have hmem : a ∈ as := by
      obtain ⟨as', rfl⟩ := chainF_shape hc; exact List.mem_cons_self a as'
    have hpa := hpres a hmem
    rw [hl] at hpa
    cases hl' : lookupNode h' a with
    | none => rw [hl'] at hpa; cases hpa
    | some n' =>
      rw [hl'] at hpa
      have hnext : n'.next = n.next := by simpa using hpa
      rcases hrest with ⟨hn, rfl⟩ | ⟨b, as', hn, rfl, hcb⟩
      · exact chainF_eq_last hl' (hnext.trans hn)
      · rw [chainF_eq_cons hl' (hnext.trans hn),
          ih hcb fun x hx => hpres x (List.mem_cons_of_mem _ hx)]
        rfl

theorem chainF_extend {h : List (Nat × Node T)} {a t : Nat} {nd : Node T}
    (hnd : nd.next = none) :
    ∀ {f hd : Nat} {as : List Nat}, chainF h f hd = some as →
      as.getLast? = some t → a ∉ as → as.Nodup →
      chainF (setNext ((a, nd) :: h) t (some a)) (f + 1) hd = some (as ++ [a]) := by
  intro f
  induction f with
  | zero => intro hd as hc; cases hc
  | succ f ih =>
    intro hd as hc hlast hmem hnodup
    obtain ⟨n, hl, hrest⟩ := chainF_inv hc
    rcases hrest with ⟨hn, rfl⟩ | ⟨b, as', hn, rfl, hcb⟩
    · have ht : t = hd := by simpa using hlast.symm
      subst ht
      have hat : a ≠ t := by simpa using hmem
      have hlt : lookupNode (setNext ((a, nd) :: h) t (some a)) t =
          some { n with next := some a } := by
        rw [lookupNode_setNext, lookupNode_cons, if_neg hat, hl]
        simp
      have hla : lookupNode (setNext ((a, nd) :: h) t (some a)) a = some nd := by
        rw [lookupNode_setNext, lookupNode_cons, if_pos rfl]
        simp [hat]
      rw [chainF_eq_cons hlt rfl, chainF_eq_last hla hnd]
      rfl
    · obtain ⟨as'', rfl⟩ := chainF_shape hcb
      have hlast' : (b :: as'').getLast? = some t := by
        rwa [List.getLast?_cons_cons] at hlast
      have htmem : t ∈ b :: as'' := getLast?_mem_of_eq hlast'
      have hnodup := List.nodup_cons.mp hnodup
      have hhd_ne_t : hd ≠ t := fun he => hnodup.1 (he ▸ htmem)
      have hhd_ne_a : hd ≠ a := by
        intro he; exact hmem (he ▸ List.mem_cons_self hd _)
      have hl' : lookupNode (setNext ((a, nd) :: h) t (some a)) hd = some n := by
        rw [lookupNode_setNext, lookupNode_cons, if_neg (Ne.symm hhd_ne_a), hl]
        simp [hhd_ne_t]
      have hmem' : a ∉ b :: as'' := fun hx => hmem (List.mem_cons_of_mem _ hx)
      rw [chainF_eq_cons hl' hn, ih hcb hlast' hmem' hnodup.2]
      rfl

/-! ## Well-formedness -/

theorem usizeSize_pos : 0 < usizeSize := Nat.two_pow_pos 64

theorem wf_iff {c : Chan T} :
    Wf c ↔ ∃ as, chain c = some as ∧
      as.getLast? = some c.tail ∧
      (c.heap.map Prod.fst).Nodup ∧
      as.Nodup ∧
      (∀ k ∈ c.heap.map Prod.fst, k ∈ as) ∧
      (∀ k ∈ c.heap.map Prod.fst, k < c.nextAddr) ∧
      (∀ x ∈ as.drop 1, ((lookupNode c.heap x).bind Node.value).isSome = true) ∧
      (c.headTag = 0 ∨ c.headTag = MULTI) ∧
      c.sendCount < usizeSize ∧ c.recvCount < usizeSize := by
  unfold Wf wfB
  cases hch : chain c with
  | none => simp [hch]
  | some as =>
    simp only [hch, Bool.and_eq_true, decide_eq_true_eq, Bool.or_eq_true,
      beq_iff_eq, List.all_eq_true, List.elem_iff, Option.some.injEq,
      exists_eq_left']
    tauto

/-- The net effect of `Channel::push` on the state. -/
theorem nodup_concat {l : List Nat} {a : Nat} (h : l.Nodup) (ha : a ∉ l) :
    (l ++ [a]).Nodup := by
  simp [List.nodup_append, h, ha]

theorem undelivered_eq {c : Chan T} {as : List Nat} (hch : chain c = some as) :
    undelivered c =
      (as.drop 1).filterMap fun a => (lookupNode c.heap a).bind Node.value := by
  simp [undelivered, hch]

theorem push_def (c : Chan T) (v : T) :
    push c v = { c with
      heap := setNext ((c.nextAddr, { next := none, value := some v }) :: c.heap)
                c.tail (some c.nextAddr)
      tail := c.nextAddr
      sendCount := (c.sendCount + 1) % usizeSize
      nextAddr := c.nextAddr + 1 } := rfl

theorem push_wf {c : Chan T} (hw : Wf c) (v : T) :
    Wf (push c v) ∧ undelivered (push c v) = undelivered c ++ [v] := by
  obtain ⟨as, hch, hlast, hkeys, hnodup, hsub, hlt, hvals, htag, hs, hr⟩ := wf_iff.mp hw
  have hch' : chainF c.heap c.heap.length c.head = some as := hch
  have hmemas : ∀ x ∈ as, x ∈ c.heap.map Prod.fst := by
    intro x hx
    obtain ⟨n, hn⟩ := Option.isSome_iff_exists.mp (chainF_lookup hch' x hx)
    exact lookupNode_mem_keys hn
  have ha_not : c.nextAddr ∉ as := fun hx =>
    lt_irrefl c.nextAddr (hlt c.nextAddr (hmemas c.nextAddr hx))
  have ha_nkeys : c.nextAddr ∉ c.heap.map Prod.fst := fun hx =>
    lt_irrefl c.nextAddr (hlt c.nextAddr hx)
  have ha_ne_tail : c.nextAddr ≠ c.tail := by
    intro he
    exact ha_not (he ▸ getLast?_mem_of_eq hlast)
  have hchx : chainF (setNext ((c.nextAddr, { next := none, value := some v }) :: c.heap)
      c.tail (some c.nextAddr)) (c.heap.length + 1) c.head = some (as ++ [c.nextAddr]) :=
    chainF_extend rfl hch' hlast ha_not hnodup
  have hchain2 : chain (push c v) = some (as ++ [c.nextAddr]) := by
    show chainF _ _ _ = _
    rw [push_def]
    simpa [setNext] using hchx
  have hval : ∀ x ∈ as,
      (lookupNode (push c v).heap x).bind Node.value =
        (lookupNode c.heap x).bind Node.value := by
    intro x hx
    have hxa : x ≠ c.nextAddr := fun he => ha_not (he ▸ hx)
    rw [push_def]
    show (lookupNode (setNext _ _ _) x).bind _ = _
    rw [lookupNode_setNext, lookupNode_cons, if_neg (Ne.symm hxa)]
    cases lookupNode c.heap x with
    | none => rfl
    | some n => by_cases hxt : x = c.tail <;> simp [hxt]
  have hla : lookupNode (push c v).heap c.nextAddr =
      some { next := none, value := some v } := by
    rw [push_def]
    show lookupNode (setNext _ _ _) _ = _
    rw [lookupNode_setNext, lookupNode_cons, if_pos rfl]
    simp [ha_ne_tail]
  obtain ⟨as1, rfl⟩ := chainF_shape hch'
  constructor
  · rw [wf_iff]
    refine ⟨_, hchain2, ?_, ?_, ?_, ?_, ?_, ?_, ?_, ?_, ?_⟩
    · rw [push_def]
      exact List.getLast?_concat _
    · rw [push_def]
      show ((setNext _ _ _).map Prod.fst).Nodup
      rw [keys_setNext, List.map_cons]
      exact List.nodup_cons.mpr ⟨ha_nkeys, hkeys⟩
    · exact nodup_concat hnodup ha_not
    · intro k hk
      rw [push_def] at hk
      rw [show ((setNext ((c.nextAddr, { next := none, value := some v }) :: c.heap)
        c.tail (some c.nextAddr)).map Prod.fst) =
          c.nextAddr :: c.heap.map Prod.fst from by rw [keys_setNext]; rfl] at hk
      rcases List.mem_cons.mp hk with rfl | hk
      · exact List.mem_append_right _ (List.mem_singleton.mpr rfl)
      · exact List.mem_append_left _ (hsub k hk)
    · intro k hk
      rw [push_def] at hk
      rw [show ((setNext ((c.nextAddr, { next := none, value := some v }) :: c.heap)
        c.tail (some c.nextAddr)).map Prod.fst) =
          c.nextAddr :: c.heap.map Prod.fst from by rw [keys_setNext]; rfl] at hk
      rw [push_def]
      show k < c.nextAddr + 1
      rcases List.mem_cons.mp hk with rfl | hk
      · omega
      · have := hlt k hk
        omega
    · intro x hx
      rw [List.cons_append] at hx
      simp only [List.drop_one, List.tail_cons] at hx
      rcases List.mem_append.mp hx with hx | hx
      · rw [hval x (List.mem_cons_of_mem _ hx)]
        exact hvals x (by simpa using hx)
      · rw [List.mem_singleton.mp hx, hla]
        rfl
    · rw [push_def]
      exact htag
    · rw [push_def]
      show (c.sendCount + 1) % usizeSize < usizeSize
      exact Nat.mod_lt _ usizeSize_pos
    · rw [push_def]
      exact hr
  · rw [undelivered_eq hchain2, undelivered_eq hch]
    rw [List.cons_append]
    simp only [List.drop_one, List.tail_cons]
    rw [List.filterMap_append]
    congr 1
    · exact List.filterMap_congr fun x hx => hval x (List.mem_cons_of_mem _ hx)
    · simp [hla]

/-! ## Pop lemmas -/

theorem lookupNode_popHeap {h : List (Nat × Node T)} {h0 b x : Nat} :
    lookupNode (clearValue (removeNode h h0) b) x =
      if x = h0 then none
      else (lookupNode h x).map fun n => if x = b then { n with value := none } else n := by
  rw [lookupNode_clearValue, lookupNode_removeNode]
  by_cases hx : x = h0 <;> simp [hx]

theorem popOnce_cases (c : Chan T) :
    (∃ v c', popOnce c = (.popped v, c')) ∨
    popOnce c = (.empty, c) ∨ popOnce c = (.retry, c) ∨ popOnce c = (.stuck, c) := by
  unfold popOnce popBody
  repeat' split
  all_goals first
    | exact Or.inl ⟨_, _, rfl⟩
    | exact Or.inr (Or.inl rfl)
    | exact Or.inr (Or.inr (Or.inl rfl))
    | exact Or.inr (Or.inr (Or.inr rfl))

theorem popBody_snd_cases (c : Chan T) (t : Nat) :
    (popBody c t).2 = c ∨ (popBody c t).2.headTag = t := by
  unfold popBody
  repeat' split
  all_goals first | exact Or.inl rfl | exact Or.inr rfl

theorem popOnce_modeA {c : Chan T} (h0 : c.headTag = 0) :
    popOnce c = popBody c 0 := by
  simp [popOnce, h0, MULTI]

theorem popOnce_modeB {c : Chan T} (hM : c.headTag &&& MULTI ≠ 0) :
    popOnce c = popBody c MULTI := by
  simp [popOnce, hM]

theorem popOnce_wf {c : Chan T} (hw : Wf c) :
    (undelivered c = [] ∧ popOnce c = (.empty, c)) ∨
    (∃ v vs c', undelivered c = v :: vs ∧ popOnce c = (.popped v, c') ∧
      Wf c' ∧ undelivered c' = vs ∧
      c'.sendCount = c.sendCount ∧
      c'.recvCount = (c.recvCount + 1) % usizeSize ∧
      c'.closed = c.closed ∧ c'.tail = c.tail) := by
  obtain ⟨as, hch, hlast, hkeys, hnodup, hsub, hlt, hvals, htag, hs, hr⟩ := wf_iff.mp hw
  have hch' : chainF c.heap c.heap.length c.head = some as := hch
  cases hL : c.heap.length with
  | zero => rw [hL] at hch'; cases hch'
  | succ L =>
    rw [hL] at hch'
    obtain ⟨n, hl, hrest⟩ := chainF_inv hch'
    rcases hrest with ⟨hn, rfl⟩ | ⟨b, as1, hn, rfl, hcb⟩
    · -- the chain is just the head node: the channel is empty
      left
      have htl : c.tail = c.head := by simpa using hlast.symm
      have hbodyE : ∀ t, popBody c t = (.empty, c) := by
        intro t
        simp [popBody, hl, hn, htl]
      constructor
      · rw [undelivered_eq hch]
        rfl
      · rcases htag with h0 | hM
        · rw [popOnce_modeA h0, hbodyE]
        · rw [popOnce_modeB (by rw [hM]; decide), hbodyE]
    · -- a node follows the head: pop succeeds
      right
      obtain ⟨as2, rfl⟩ := chainF_shape hcb
      have hvb := hvals b (by simp)
      cases hlb : lookupNode c.heap b with
      | none => rw [hlb] at hvb; cases hvb
      | some m =>
        rw [hlb] at hvb
        cases hmv : m.value with
        | none => simp [hmv] at hvb
        | some v =>
          have hchead : c.head ∉ b :: as2 := (List.nodup_cons.mp hnodup).1
          have hnodup1 : (b :: as2).Nodup := (List.nodup_cons.mp hnodup).2
          have hhead_keys : c.head ∈ c.heap.map Prod.fst := lookupNode_mem_keys hl
          have hbody : ∀ t, popBody c t =
              (.popped v,
                { c with
                  heap := clearValue (removeNode c.heap c.head) b
                  head := b
                  headTag := t
                  recvCount := (c.recvCount + 1) % usizeSize }) := by
            intro t
            simp [popBody, hl, hn, hlb, hmv]
          -- lookups along the new chain agree with the old heap up to the value of b
          have hlook : ∀ x ∈ b :: as2,
              (lookupNode (clearValue (removeNode c.heap c.head) b) x).map Node.next =
                (lookupNode c.heap x).map Node.next := by
            intro x hx
            have hxh : x ≠ c.head := fun he => hchead (he ▸ hx)
            rw [lookupNode_popHeap, if_neg hxh]
            cases lookupNode c.heap x with
            | none => rfl
            | some nn => by_cases hxb : x = b <;> simp [hxb]
          have hval : ∀ x ∈ as2,
              (lookupNode (clearValue (removeNode c.heap c.head) b) x).bind Node.value =
                (lookupNode c.heap x).bind Node.value := by
            intro x hx
            have hxh : x ≠ c.head := fun he => hchead (he ▸ List.mem_cons_of_mem _ hx)
            have hxb : x ≠ b := fun he => (List.nodup_cons.mp hnodup1).1 (he ▸ hx)
            rw [lookupNode_popHeap, if_neg hxh]
            cases lookupNode c.heap x with
            | none => rfl
            | some nn => simp [hxb]
          have hlen2 : (clearValue (removeNode c.heap c.head) b).length = L := by
            have := length_removeNode hkeys hhead_keys
            have hcv : (clearValue (removeNode c.heap c.head) b).length =
                (removeNode c.heap c.head).length := by
              simp [clearValue]
            omega
          have hchain2 :
              chain { c with
                heap := clearValue (removeNode c.heap c.head) b
                head := b
                headTag := 0
                recvCount := (c.recvCount + 1) % usizeSize } = some (b :: as2) := by
            show chainF _ _ _ = _
            rw [hlen2]
            exact chainF_congr hcb hlook
          have hchain2' : ∀ t,
              chain { c with
                heap := clearValue (removeNode c.heap c.head) b
                head := b
                headTag := t
                recvCount := (c.recvCount + 1) % usizeSize } = some (b :: as2) := by
            intro t
            exact hchain2
          have hkeys2 : ((clearValue (removeNode c.heap c.head) b).map Prod.fst) =
              (c.heap.map Prod.fst).filter (· != c.head) := by
            rw [keys_clearValue, keys_removeNode]
          have hwfx : ∀ t, t = 0 ∨ t = MULTI →
              Wf { c with
                heap := clearValue (removeNode c.heap c.head) b
                head := b
                headTag := t
                recvCount := (c.recvCount + 1) % usizeSize } := by
            intro t ht
            rw [wf_iff]
            refine ⟨b :: as2, hchain2' t, ?_, ?_, hnodup1, ?_, ?_, ?_, ht, hs,
              Nat.mod_lt _ usizeSize_pos⟩
            · show (b :: as2).getLast? = some c.tail
              rwa [List.getLast?_cons_cons] at hlast
            · show ((clearValue (removeNode c.heap c.head) b).map Prod.fst).Nodup
              rw [hkeys2]
              exact hkeys.filter _
            · intro k hk
              rw [hkeys2] at hk
              have hk' := List.mem_filter.mp hk
              have : k ∈ c.head :: b :: as2 := hsub k hk'.1
              rcases List.mem_cons.mp this with rfl | hmem
              · exact absurd hk'.2 (by simp)
              · exact hmem
            · intro k hk
              rw [hkeys2] at hk
              exact hlt k (List.mem_filter.mp hk).1
            · intro x hx
              simp only [List.drop_one, List.tail_cons] at hx
              show ((lookupNode (clearValue (removeNode c.heap c.head) b) x).bind
                Node.value).isSome = true
              rw [hval x hx]
              exact hvals x (by simp [hx])
          have hundeliv : undelivered c =
              v :: as2.filterMap fun a => (lookupNode c.heap a).bind Node.value := by
            rw [undelivered_eq hch]
            simp only [List.drop_one, List.tail_cons]
            rw [List.filterMap_cons]
            simp [hlb, hmv]
          have hundeliv2 : ∀ t,
              undelivered { c with
                heap := clearValue (removeNode c.heap c.head) b
                head := b
                headTag := t
                recvCount := (c.recvCount + 1) % usizeSize } =
              as2.filterMap fun a => (lookupNode c.heap a).bind Node.value := by
            intro t
            rw [undelivered_eq (hchain2' t)]
            simp only [List.drop_one, List.tail_cons]
            exact List.filterMap_congr fun x hx => hval x hx
          rcases htag with h0 | hM
          · exact ⟨v, _, _, hundeliv, by rw [popOnce_modeA h0, hbody 0],
              hwfx 0 (Or.inl rfl), hundeliv2 0, rfl, rfl, rfl, rfl⟩
          · exact ⟨v, _, _, hundeliv,
              by rw [popOnce_modeB (by rw [hM]; decide), hbody MULTI],
              hwfx MULTI (Or.inr rfl), hundeliv2 MULTI, rfl, rfl, rfl, rfl⟩

/-! ## Close, counters, and the reachable-state invariant -/

theorem wfB_ignore (c : Chan T) (x : Bool) (y z : Nat) :
    wfB { c with closed := x, abortCount := y, notifyCount := z } = wfB c := rfl

theorem undelivered_ignore (c : Chan T) (x : Bool) (y z : Nat) :
    undelivered { c with closed := x, abortCount := y, notifyCount := z } =
      undelivered c := rfl

theorem close_snd (c : Chan T) :
    (close c).2 = if c.closed then c
      else { c with closed := true, abortCount := c.abortCount + 1 } := by
  by_cases h : c.closed <;> simp [close, h]

theorem close_wf {c : Chan T} (hw : Wf c) : Wf (close c).2 := by
  rw [close_snd]
  by_cases h : c.closed
  · simpa [h] using hw
  · simp only [h, if_false]
    exact hw

theorem usizeSize_eq : usizeSize = 18446744073709551616 := by
  norm_num [usizeSize]

theorem wf_counts {c : Chan T} (hw : Wf c) :
    c.sendCount < usizeSize ∧ c.recvCount < usizeSize := by
  obtain ⟨as, -, -, -, -, -, -, -, -, hs, hr⟩ := wf_iff.mp hw
  exact ⟨hs, hr⟩

theorem wrapSub_step_send {s r n : Nat} (_ : s < usizeSize) (_ : r < usizeSize)
    (h : wrapSub s r = n % usizeSize) :
    wrapSub ((s + 1) % usizeSize) r = (n + 1) % usizeSize := by
  unfold wrapSub at *
  rw [usizeSize_eq] at *
  omega

theorem wrapSub_step_recv {s r n : Nat} (_ : s < usizeSize) (_ : r < usizeSize)
    (h : wrapSub s r = (n + 1) % usizeSize) :
    wrapSub s ((r + 1) % usizeSize) = n % usizeSize := by
  unfold wrapSub at *
  rw [usizeSize_eq] at *
  omega

/-- The invariant maintained by every reachable state: well-formedness, and the
wraparound difference of the counters equals the number of undelivered values
(reduced modulo `2 ^ 64`). -/
theorem reachable_inv {c : Chan T} (h : Reachable c) :
    Wf c ∧ wrapSub c.sendCount c.recvCount = (undelivered c).length % usizeSize := by
  induction h with
  | refl =>
    refine ⟨rfl, ?_⟩
    show wrapSub 0 0 = ([] : List T).length % usizeSize
    unfold wrapSub
    rw [usizeSize_eq]
    norm_num
  | step hr hs ih =>
    rename_i b c
    cases hs with
    | push v =>
      obtain ⟨hw', hu'⟩ := push_wf ih.1 v
      refine ⟨hw', ?_⟩
      rw [hu', List.length_append, List.length_singleton]
      rw [show (push b v).sendCount = (b.sendCount + 1) % usizeSize from rfl,
        show (push b v).recvCount = b.recvCount from rfl]
      exact wrapSub_step_send (wf_counts ih.1).1 (wf_counts ih.1).2 ih.2
    | pop =>
      rcases popOnce_wf ih.1 with ⟨hu0, hE⟩ |
        ⟨v, vs, c', hv, hpop, hw', hu', hsend, hrecv, -, -⟩
      · rw [hE]
        exact ih
      · rw [hpop]
        refine ⟨hw', ?_⟩
        rw [hu', hsend, hrecv]
        refine wrapSub_step_recv (wf_counts ih.1).1 (wf_counts ih.1).2 ?_
        rw [← List.length_cons v vs, ← hv]
        exact ih.2
    | close =>
      refine ⟨close_wf ih.1, ?_⟩
      rw [close_snd]
      by_cases h : b.closed
      · simpa [h] using ih.2
      · simp only [h, if_false]
        exact ih.2

/-! ## `try_recv` step lemmas and draining -/

theorem tryRecv_of_popped {c c' : Chan T} {v : T}
    (h : popOnce c = (.popped v, c')) : tryRecv c = some (.ok v, c') := by
  simp [tryRecv, pop, h]

theorem tryRecv_of_empty {c : Chan T} (h : popOnce c = (.empty, c)) :
    tryRecv c = some (if c.closed then .disconnected else .empty, c) := by
  simp [tryRecv, pop, h]

/-- On a closed well-formed channel, `(undelivered c).length + 1` calls to
`try_recv` return exactly the undelivered values in order followed by one
`Disconnected`. -/
theorem drain_spec :
    ∀ (l : List T) (c : Chan T), Wf c → c.closed = true → undelivered c = l →
      (drain (l.length + 1) c).1 =
        l.map TryRecvResult.ok ++ [TryRecvResult.disconnected] := by
  intro l
  induction l with
  | nil =>
    intro c hw hc hu
    rcases popOnce_wf hw with ⟨-, hE⟩ | ⟨v, vs, c', hv, -⟩
    · have ht := tryRecv_of_empty hE
      rw [hc] at ht
      simp [drain, ht]
    · rw [hu] at hv; cases hv
  | cons v vs ih =>
    intro c hw hc hu
    rcases popOnce_wf hw with ⟨hu0, -⟩ |
      ⟨v', vs', c', hv, hpop, hw', hu', -, -, hclosed, -⟩
    · rw [hu] at hu0; cases hu0
    · rw [hu] at hv
      injection hv with hv1 hv2
      have ht := tryRecv_of_popped hpop
      show (drain (vs.length + 1 + 1) c).1 = _
      rw [drain, ht]
      simp only []
      rw [ih c' hw' (hclosed.trans hc) (hu'.trans hv2.symm), hv1]
      rfl

theorem popBody_popped_snd {c : Chan T} {t : Nat} {v : T} {d : Chan T}
    (h : popBody c t = (.popped v, d)) : d.headTag = t := by
  unfold popBody at h
  repeat' split at h
  all_goals injection h with h1 h2
  all_goals try (cases h1; done)
  all_goals (subst h2; rfl)

/-! ## Claims -/

/-- C1: on a fresh channel, after `try_send` of 10, 20, 30, three successive
`try_recv` calls return `Ok(10)`, `Ok(20)`, `Ok(30)`, a fourth returns
`Err(Empty)`, and after `close()` a fifth returns `Err(Disconnected)`. -/
theorem C1_concrete_scenario :
    (trySend scn0 10).1 = TrySendResult.ok ∧
    (trySend scn1 20).1 = TrySendResult.ok ∧
    (trySend scn2 30).1 = TrySendResult.ok ∧
    recvRes scn3 = some (TryRecvResult.ok 10) ∧
    recvRes scn4 = some (TryRecvResult.ok 20) ∧
    recvRes scn5 = some (TryRecvResult.ok 30) ∧
    recvRes scn6 = some TryRecvResult.empty ∧
    (close scn6).1 = true ∧
    recvRes scn7 = some TryRecvResult.disconnected := by
  decide

/-- C2: in every state reachable from `new` by push/pop/close operations,
`send_count - recv_count` (wraparound) equals the number of undelivered
values reduced modulo `2 ^ 64`, and `len()` returns exactly that number; in
particular it returns the exact count whenever the count is a `usize` value
(which is every count a real execution can produce). -/
theorem C2_len_counts {c : Chan T} (h : Reachable c) :
    wrapSub c.sendCount c.recvCount = (undelivered c).length % usizeSize ∧
    len c = (undelivered c).length % usizeSize ∧
    ((undelivered c).length < usizeSize → len c = (undelivered c).length) := by
  obtain ⟨-, h2⟩ := reachable_inv h
  exact ⟨h2, h2, fun hlt => h2.trans (Nat.mod_eq_of_lt hlt)⟩

theorem C2_len_counts_witness :
    Reachable (push (new : Chan Nat) 10) ∧
    len (push (new : Chan Nat) 10) = (undelivered (push (new : Chan Nat) 10)).length := by
  have hre : Reachable (push (new : Chan Nat) 10) :=
    ReachFrom.step (ReachFrom.refl _) (StepTo.push _ 10)
  exact ⟨hre, (C2_len_counts hre).2.2 (by decide)⟩

/-- C3: `pop` reports empty only when `tail` equals the observed `head`; on a
well-formed state it reports empty exactly when there is no undelivered
value; and a null next-reference with `tail ≠ head` produces a retry (an
unchanged state and another loop iteration), never an empty report. -/
theorem C3_empty_iff (c : Chan T) :
    ((popOnce c).1 = PopResult.empty → c.tail = c.head ∧ (popOnce c).2 = c) ∧
    (Wf c → ((popOnce c).1 = PopResult.empty ↔ undelivered c = [])) ∧
    (∀ n, lookupNode c.heap c.head = some n → n.next = none → c.tail ≠ c.head →
      (c.headTag = 0 ∨ c.headTag &&& MULTI ≠ 0) → popOnce c = (.retry, c)) := by
  refine ⟨?_, ?_, ?_⟩
  · unfold popOnce popBody
    repeat' split
    all_goals intro hE
    all_goals first
      | exact ⟨by assumption, rfl⟩
      | cases hE
  · intro hw
    rcases popOnce_wf hw with ⟨hu, hE⟩ | ⟨v, vs, c', hv, hpop, -⟩
    · rw [hE, hu]
      simp
    · rw [hpop, hv]
      simp
  · intro n hl hn htl htag
    rcases htag with h0 | hM
    · rw [popOnce_modeA h0]
      simp [popBody, hl, hn, htl]
    · rw [popOnce_modeB hM]
      simp [popBody, hl, hn, htl]

theorem C3_empty_iff_witness :
    (Wf (new : Chan Nat) ∧
      ((popOnce (new : Chan Nat)).1 = PopResult.empty ↔
        undelivered (new : Chan Nat) = [])) ∧
    (lookupNode midAppend.heap midAppend.head =
        some { next := none, value := none } ∧
      midAppend.tail ≠ midAppend.head ∧
      popOnce midAppend = (.retry, midAppend)) := by
  refine ⟨⟨rfl, (C3_empty_iff (new : Chan Nat)).2.1 rfl⟩, by decide, by decide, ?_⟩
  exact (C3_empty_iff midAppend).2.2 { next := none, value := none }
    (by decide) rfl (by decide) (Or.inl rfl)

/-- C4 as stated is false: `Channel::push` increments `send_count` (line 79)
BEFORE it links the previous tail's next-reference (line 80), so the claimed
step order alloc, exchange-tail, link-next, then increment does not match the
source order. -/
theorem C4_order_cex :
    pushSteps ≠ [PushStep.alloc, PushStep.swapTail, PushStep.linkNext,
      PushStep.incSendCount] := by
  decide

/-- C4 (amended): `push` always succeeds without blocking and performs exactly
these steps in this order: allocate the node with a null next-reference;
atomically exchange it into `tail`; increment `sendCount`; then link the
previous tail's next-reference to the new node.  The net effect appends the
value and bumps `sendCount` by one modulo `2 ^ 64`. -/
theorem C4_push_order (c : Chan T) (v : T) :
    push c v = pushVia [PushStep.alloc, PushStep.swapTail, PushStep.incSendCount,
      PushStep.linkNext] c v ∧
    pushSteps = [PushStep.alloc, PushStep.swapTail, PushStep.incSendCount,
      PushStep.linkNext] ∧
    (push c v).sendCount = (c.sendCount + 1) % usizeSize ∧
    (push c v).tail = c.nextAddr ∧
    (Wf c → Wf (push c v) ∧ undelivered (push c v) = undelivered c ++ [v]) := by
  exact ⟨rfl, rfl, rfl, rfl, fun hw => push_wf hw v⟩

theorem C4_push_order_witness :
    Wf (new : Chan Nat) ∧
    undelivered (push (new : Chan Nat) 4) = undelivered (new : Chan Nat) ++ [4] :=
  ⟨rfl, ((C4_push_order (new : Chan Nat) 4).2.2.2.2 rfl).2⟩

/-- C5: after `close()` on a channel still holding values, successive
`try_recv` calls return each remaining value in order and only once the list
is drained return `Disconnected`; on an open empty channel `try_recv` returns
`Empty`, never `Disconnected`. -/
theorem C5_drain_after_close {c : Chan T} (hw : Wf c) :
    (c.closed = true →
      (drain ((undelivered c).length + 1) c).1 =
        (undelivered c).map TryRecvResult.ok ++ [TryRecvResult.disconnected]) ∧
    (c.closed = false → undelivered c = [] →
      tryRecv c = some (TryRecvResult.empty, c)) := by
  constructor
  · intro hc
    exact drain_spec (undelivered c) c hw hc rfl
  · intro hc hu
    rcases popOnce_wf hw with ⟨-, hE⟩ | ⟨v, vs, c', hv, -⟩
    · have ht := tryRecv_of_empty hE
      rw [hc] at ht
      simpa using ht
    · rw [hu] at hv
      cases hv

theorem C5_drain_after_close_witness :
    Wf closedScn ∧ closedScn.closed = true ∧
    (drain 3 closedScn).1 =
      [TryRecvResult.ok 1, TryRecvResult.ok 2, TryRecvResult.disconnected] := by
  refine ⟨rfl, rfl, ?_⟩
  have h := (C5_drain_after_close (c := closedScn) rfl).1 rfl
  rw [show undelivered closedScn = [1, 2] from by decide] at h
  exact h

/-- C6: `try_send` and `send` on a closed channel fail with `Disconnected`
carrying the value back and leave the state untouched; on an open channel
they push the value (appending it to the undelivered list), increment
`send_count` modulo `2 ^ 64`, wake one receiver, and return `Ok`. -/
theorem C6_send_on_closed (c : Chan T) (v : T) :
    (c.closed = true →
      trySend c v = (.disconnected v, c) ∧ send c v = (.disconnected v, c)) ∧
    (c.closed = false →
      trySend c v = (.ok, notifyOne (push c v)) ∧
      send c v = (.ok, notifyOne (push c v)) ∧
      (trySend c v).2.sendCount = (c.sendCount + 1) % usizeSize ∧
      (Wf c → undelivered (trySend c v).2 = undelivered c ++ [v])) := by
  constructor
  · intro hc
    exact ⟨by simp [trySend, hc], by simp [send, hc]⟩
  · intro hc
    refine ⟨by simp [trySend, hc], by simp [send, hc], ?_, ?_⟩
    · rw [show (trySend c v).2 = notifyOne (push c v) from by simp [trySend, hc]]
      rfl
    · intro hw
      rw [show (trySend c v).2 = notifyOne (push c v) from by simp [trySend, hc]]
      rw [show undelivered (notifyOne (push c v)) = undelivered (push c v) from rfl]
      exact (push_wf hw v).2

theorem C6_send_on_closed_witness :
    closedScn.closed = true ∧
    trySend closedScn 9 = (.disconnected 9, closedScn) ∧
    (new : Chan Nat).closed = false ∧
    trySend (new : Chan Nat) 9 = (.ok, notifyOne (push new 9)) :=
  ⟨rfl, ((C6_send_on_closed closedScn 9).1 rfl).1, rfl,
    ((C6_send_on_closed (new : Chan Nat) 9).2 rfl).1⟩

/-- C7: `close()` returns `true` exactly on the call that flips `closed` from
false to true; any later call returns `false` and has no effect;
`abort_all` runs only on the transitioning call; and `close` never changes
the counters, the list, or `len()`. -/
theorem C7_close_idempotent (c : Chan T) :
    (close c).1 = !c.closed ∧
    ((close c).2).closed = true ∧
    (c.closed = true → close c = (false, c)) ∧
    ((close c).2).sendCount = c.sendCount ∧
    ((close c).2).recvCount = c.recvCount ∧
    ((close c).2).heap = c.heap ∧
    ((close c).2).head = c.head ∧
    ((close c).2).headTag = c.headTag ∧
    ((close c).2).tail = c.tail ∧
    len (close c).2 = len c ∧
    undelivered (close c).2 = undelivered c ∧
    ((close c).2).abortCount = c.abortCount + (if c.closed then 0 else 1) ∧
    (close (close c).2).1 = false := by
  by_cases h : c.closed
  · simp [close, h, len]
  · simp [close, h, len]
    rfl

theorem C7_close_idempotent_witness :
    closedScn.closed = true ∧ close closedScn = (false, closedScn) :=
  ⟨rfl, (C7_close_idempotent closedScn).2.2.1 rfl⟩

/-- C8: the destructor's traversal does free every node reachable from `head`
and aims its payload destruction at every node after `head` (the node `head`
points to is skipped), but line 260 instantiates `ptr::drop_in_place` at
`Node<T>` while passing the address of the `value` slot, so the drop glue
destroys the `T` it expects at the value-field offset past the slot — the
slot itself is destroyed only if that offset is zero, which the language does
not guarantee. -/
theorem C8_drop_line260 :
    (∀ base off : Nat,
      dropTargetLine260 base off = valueSlotAddr base off ↔ off = 0) ∧
    dropWalk dropScn.heap dropScn.heap.length dropScn.head =
      some ([0, 1, 2], [1, 2]) ∧
    undelivered dropScn = [7, 8] := by
  refine ⟨?_, by decide, by decide⟩
  intro base off
  simp only [dropTargetLine260, dropGlueDestroys, valueSlotAddr]
  omega

/-- C9: once `MULTI` is set on `head`, every state reachable by further
push/pop/close operations still carries `MULTI` (and `len` reads the counters
without touching the state at all); every pop in such a state takes the
Mode B path, and a successful Mode B pop re-installs exactly the `MULTI`
tag. -/
theorem C9_multi_oneway {c c' : Chan T} (hr : ReachFrom c c')
    (hm : c.headTag &&& MULTI ≠ 0) :
    c'.headTag &&& MULTI ≠ 0 ∧ popMode c' = PopMode.multiB ∧
    (∀ v d, popOnce c' = (.popped v, d) → d.headTag = MULTI) := by
  have key : c'.headTag &&& MULTI ≠ 0 := by
    induction hr with
    | refl => exact hm
    | step hr2 hs ih =>
      rename_i b c2
      cases hs with
      | push v => exact ih
      | pop =>
        rw [popOnce_modeB ih]
        rcases popBody_snd_cases b MULTI with h | h
        · rw [h]
          exact ih
        · rw [h]
          decide
      | close =>
        rw [close_snd]
        by_cases hb : b.closed
        · simpa [hb] using ih
        · simp only [hb, if_false]
          exact ih
  refine ⟨key, ?_, ?_⟩
  · rw [popMode, if_neg key]
  · intro v d hp
    rw [popOnce_modeB key] at hp
    exact popBody_popped_snd hp

theorem C9_multi_oneway_witness :
    multiState.headTag &&& MULTI ≠ 0 ∧
    (push multiState 6).headTag &&& MULTI ≠ 0 ∧
    popMode (push multiState 6) = PopMode.multiB := by
  have hr : ReachFrom multiState (push multiState 6) :=
    ReachFrom.step (ReachFrom.refl _) (StepTo.push _ 6)
  have h := C9_multi_oneway hr (by decide)
  exact ⟨by decide, h.1, h.2.1⟩

/-- C10: a `pop` that returns `None` — and a `try_recv` that returns `Empty`
or `Disconnected` — returns the state exactly as it was: counters, `closed`,
head/tail references with their tags, and the undelivered list are all
unchanged (the states are equal); a retry iteration likewise leaves the state
unchanged. -/
theorem C10_pop_none_pure (c : Chan T) :
    (∀ c', pop c = some (none, c') → c' = c) ∧
    ((popOnce c).1 = PopResult.retry → (popOnce c).2 = c) ∧
    (∀ c', tryRecv c = some (TryRecvResult.empty, c') → c' = c) ∧
    (∀ c', tryRecv c = some (TryRecvResult.disconnected, c') → c' = c) := by
  rcases popOnce_cases c with ⟨v, d, hp⟩ | hp | hp | hp
  · refine ⟨fun c' h => ?_, fun h => ?_, fun c' h => ?_, fun c' h => ?_⟩
    · simp [pop, hp] at h
    · rw [hp] at h
      cases h
    · simp [tryRecv, pop, hp] at h
    · simp [tryRecv, pop, hp] at h
  · refine ⟨fun c' h => ?_, fun h => ?_, fun c' h => ?_, fun c' h => ?_⟩
    · simp [pop, hp] at h
      exact h.symm
    · rw [hp] at h
      cases h
    · simp [tryRecv, pop, hp] at h
      first | exact h.symm | exact h.2.symm
    · simp [tryRecv, pop, hp] at h
      first | exact h.symm | exact h.2.symm
  · refine ⟨fun c' h => ?_, fun h => ?_, fun c' h => ?_, fun c' h => ?_⟩
    · simp [pop, hp] at h
    · rw [hp]
    · simp [tryRecv, pop, hp] at h
    · simp [tryRecv, pop, hp] at h
  · refine ⟨fun c' h => ?_, fun h => ?_, fun c' h => ?_, fun c' h => ?_⟩
    · simp [pop, hp] at h
    · rw [hp] at h
      cases h
    · simp [tryRecv, pop, hp] at h
    · simp [tryRecv, pop, hp] at h

theorem C10_pop_none_pure_witness :
    pop (new : Chan Nat) = some (none, (new : Chan Nat)) ∧
    tryRecv (new : Chan Nat) = some (TryRecvResult.empty, (new : Chan Nat)) ∧
    ∃ d, tryRecv (new : Chan Nat) = some (TryRecvResult.empty, d) ∧ d = new := by
  refine ⟨by decide, by decide, new, by decide, ?_⟩
  exact (C10_pop_none_pure (new : Chan Nat)).2.2.1 new (by decide)

end ListChannel
